import Mathlib

/-!
Verification of the contiguous physical-frame allocator `ContFramePool`
(file `cont_frame_pool.C`).

The pool keeps a packed state map with two bits per frame (states
`Free`, `Used`, `HoS` = head of sequence), searches free runs first-fit
in `get_frames`, marks runs in `mark_inaccessible`, and releases runs in
the static `release_frames`, which locates the owning pool through a
registry.  The registry is modelled as an explicit list of pools; the
console collaborator is modelled by an `Option ReleaseError` result.

Machine integers (`unsigned long`, `unsigned char`) are modelled as
`Nat`; every byte stored into the map carries an explicit `% 256` where
the source performs an `unsigned char` cast.  Natural subtraction is
truncated, so the model is faithful for frame numbers at or above the
pool's base frame, which is the only regime the source reaches through
its own guarded entry points.
-/

/-- Modelled from the spec: `FRAME_SIZE` lives in the missing header
`cont_frame_pool.H`; the spec treats it as a fixed build-time constant
(the usual 4 KiB physical frame). -/
def FRAME_SIZE : Nat := 4096

/-- Modelled from the spec: the 2-bit per-frame state enumeration from the
missing header.  The spec requires that the packed value `0` denote `Free`
(zeroing the map frees everything); `Used` and `HoS` are the two remaining
distinct non-zero codes. -/
inductive FrameState : Type
  | Free : FrameState
  | Used : FrameState
  | HoS : FrameState
deriving DecidableEq, Repr

/-- Numeric code stored in the packed map for a state. -/
def FrameState.toBits : FrameState → Nat
  | .Free => 0
  | .Used => 1
  | .HoS => 2

/-- Decoding of a 2-bit slot.  The code never stores the slot value `3`,
so the fallback to `Free` is unreachable through the pool's operations. -/
def FrameState.ofBits : Nat → FrameState
  | 1 => .Used
  | 2 => .HoS
  | _ => .Free

theorem FrameState.ofBits_toBits (s : FrameState) : FrameState.ofBits s.toBits = s := by
  cases s <;> rfl

theorem FrameState.toBits_lt (s : FrameState) : s.toBits < 4 := by
  cases s <;> decide

/-- The pool object: usable base frame, usable frame count, metadata frame
number, the bytes of the packed state map (the memory the `bitmap` pointer
addresses), and the map's size in bytes. -/
structure ContFramePool : Type where
  base_frame_no : Nat
  n_frames : Nat
  info_frame_no : Nat
  bitmap : List Nat
  bitmap_size : Nat
deriving Repr, DecidableEq

/-- Source `ContFramePool::get_state`: extract the 2-bit slot of a frame from the
packed map (`rel << 1`, byte index `bit >> 3`, shift `bit & 7`, mask
`& 0x03`). -/
def ContFramePool.get_state (p : ContFramePool) (frame_no : Nat) : FrameState :=
  let rel := frame_no - p.base_frame_no
  let bit := rel * 2
  let byte_idx := bit / 8
  let shift := bit % 8
  let slot := p.bitmap.getD byte_idx 0
  FrameState.ofBits ((slot >>> shift) % 4)

/-- Source `ContFramePool::set_state`: read-modify-write of the 2-bit slot of a
frame.  `~mask` on an 8-bit quantity is `255 - mask`, and the final store
through `unsigned char` is the trailing `% 256`. -/
def ContFramePool.set_state (p : ContFramePool) (frame_no : Nat) (state : FrameState) :
    ContFramePool :=
  let rel := frame_no - p.base_frame_no
  let bit := rel * 2
  let byte_idx := bit / 8
  let shift := bit % 8
  let mask := (3 <<< shift) % 256
  let val := (state.toBits <<< shift) % 256
  let slot := p.bitmap.getD byte_idx 0
  { p with bitmap := p.bitmap.set byte_idx (((slot &&& (255 - mask)) ||| val) % 256) }

set_option maxRecDepth 4096

/-- Byte-level core of `set_state`-then-`get_state` on the same 2-bit slot:
writing code `v` at slot `r` of a byte and reading slot `r` back yields `v`. -/
theorem writeSlot_readSlot_same :
    ∀ b < 256, ∀ v < 4, ∀ r < 4,
      ((((b &&& (255 - (3 <<< (2 * r)) % 256)) ||| ((v <<< (2 * r)) % 256)) % 256) >>>
          (2 * r)) % 4 = v := by
  decide

/-- Byte-level core of `set_state` frame independence: writing slot `r`
of a byte leaves every other 2-bit slot `r'` unchanged. -/
theorem writeSlot_readSlot_other :
    ∀ b < 256, ∀ v < 4, ∀ r < 4, ∀ r' < 4, r ≠ r' →
      ((((b &&& (255 - (3 <<< (2 * r)) % 256)) ||| ((v <<< (2 * r)) % 256)) % 256) >>>
          (2 * r')) % 4 = (b >>> (2 * r')) % 4 := by
  decide

theorem getD_set_self_nat (l : List Nat) (i a : Nat) (h : i < l.length) :
    (l.set i a).getD i 0 = a := by
  have h2 : i < (l.set i a).length := by simpa using h
  rw [List.getD_eq_getElem _ _ h2, List.getElem_set_self]

theorem getD_set_other_nat (l : List Nat) (i j a : Nat) (hne : i ≠ j) :
    (l.set i a).getD j 0 = l.getD j 0 := by
  by_cases hj : j < l.length
  · have h2 : j < (l.set i a).length := by simpa using hj
    rw [List.getD_eq_getElem _ _ h2, List.getD_eq_getElem _ _ hj, List.getElem_set_ne hne]
  · rw [List.getD_eq_default, List.getD_eq_default]
    · omega
    · simpa using Nat.le_of_not_lt hj

theorem getD_mem_lt (l : List Nat) (i : Nat) (hi : i < l.length)
    (hall : ∀ b ∈ l, b < 256) : l.getD i 0 < 256 := by
  rw [List.getD_eq_getElem _ _ hi]
  exact hall _ (List.getElem_mem hi)

/-- Well-formedness of the state-map bytes: the list holds exactly
`bitmap_size` bytes, each a byte value, and the map is large enough for
the pool's frames (two bits per frame). -/
def WF (p : ContFramePool) : Prop :=
  p.bitmap.length = p.bitmap_size ∧ (∀ b ∈ p.bitmap, b < 256) ∧
    p.n_frames * 2 ≤ p.bitmap_size * 8

instance (p : ContFramePool) : Decidable (WF p) := by
  unfold WF; infer_instance

theorem set_state_base (p : ContFramePool) (f : Nat) (s : FrameState) :
    (p.set_state f s).base_frame_no = p.base_frame_no := rfl

theorem set_state_n_frames (p : ContFramePool) (f : Nat) (s : FrameState) :
    (p.set_state f s).n_frames = p.n_frames := rfl

theorem set_state_bitmap_size (p : ContFramePool) (f : Nat) (s : FrameState) :
    (p.set_state f s).bitmap_size = p.bitmap_size := rfl

theorem set_state_info (p : ContFramePool) (f : Nat) (s : FrameState) :
    (p.set_state f s).info_frame_no = p.info_frame_no := rfl

theorem set_state_bitmap_length (p : ContFramePool) (f : Nat) (s : FrameState) :
    (p.set_state f s).bitmap.length = p.bitmap.length := by
  simp [ContFramePool.set_state]

theorem WF_set_state (p : ContFramePool) (f : Nat) (s : FrameState) (hwf : WF p) :
    WF (p.set_state f s) := by
  obtain ⟨h1, h2, h3⟩ := hwf
  refine ⟨?_, ?_, h3⟩
  · simpa [ContFramePool.set_state] using h1
  · intro b hb
    simp only [ContFramePool.set_state] at hb
    rcases List.mem_or_eq_of_mem_set hb with h | h
    · exact h2 _ h
    · subst h; exact Nat.mod_lt _ (by omega)

theorem byte_idx_lt (p : ContFramePool) (f : Nat) (hwf : WF p)
    (hf1 : p.base_frame_no ≤ f) (hf2 : f < p.base_frame_no + p.n_frames) :
    (f - p.base_frame_no) * 2 / 8 < p.bitmap.length := by
  obtain ⟨h1, _, h3⟩ := hwf
  have : (f - p.base_frame_no) * 2 < p.bitmap_size * 8 := by omega
  rw [h1]
  omega

/-- Reading back the slot just written: `get_state` after `set_state` at the
same in-range frame returns the written state. -/
theorem get_state_set_state_self (p : ContFramePool) (f : Nat) (s : FrameState)
    (hwf : WF p) (hf1 : p.base_frame_no ≤ f) (hf2 : f < p.base_frame_no + p.n_frames) :
    (p.set_state f s).get_state f = s := by
  have hidx := byte_idx_lt p f hwf hf1 hf2
  have hslot : p.bitmap.getD ((f - p.base_frame_no) * 2 / 8) 0 < 256 :=
    getD_mem_lt _ _ hidx hwf.2.1
  simp only [ContFramePool.get_state, ContFramePool.set_state]
  rw [getD_set_self_nat _ _ _ hidx]
  have hmod : (f - p.base_frame_no) * 2 % 8 = 2 * ((f - p.base_frame_no) % 4) := by omega
  rw [hmod]
  rw [writeSlot_readSlot_same _ hslot _ s.toBits_lt _ (Nat.mod_lt _ (by omega))]
  exact FrameState.ofBits_toBits s

/-- Frame independence of `set_state`: writing one in-range frame's slot
leaves the recorded state of every other frame at or above the base
unchanged. -/
theorem get_state_set_state_other (p : ContFramePool) (f f' : Nat) (s : FrameState)
    (hwf : WF p) (hf1 : p.base_frame_no ≤ f) (hf2 : f < p.base_frame_no + p.n_frames)
    (hf3 : p.base_frame_no ≤ f') (hne : f ≠ f') :
    (p.set_state f s).get_state f' = p.get_state f' := by
  have hidx := byte_idx_lt p f hwf hf1 hf2
  have hslot : p.bitmap.getD ((f - p.base_frame_no) * 2 / 8) 0 < 256 :=
    getD_mem_lt _ _ hidx hwf.2.1
  have hrelne : f - p.base_frame_no ≠ f' - p.base_frame_no := by omega
  simp only [ContFramePool.get_state, ContFramePool.set_state]
  by_cases hbyte : (f - p.base_frame_no) * 2 / 8 = (f' - p.base_frame_no) * 2 / 8
  · rw [← hbyte, getD_set_self_nat _ _ _ hidx]
    have hmod : (f - p.base_frame_no) * 2 % 8 = 2 * ((f - p.base_frame_no) % 4) := by omega
    have hmod' : (f' - p.base_frame_no) * 2 % 8 = 2 * ((f' - p.base_frame_no) % 4) := by omega
    rw [hmod, hmod']
    rw [writeSlot_readSlot_other _ hslot _ s.toBits_lt _ (Nat.mod_lt _ (by omega)) _
      (Nat.mod_lt _ (by omega)) (by omega)]
  · rw [getD_set_other_nat _ _ _ _ hbyte]

/-- Source `ContFramePool::needed_info_frames`: frames needed to hold two bits per
frame (`bits = n << 1`, `bytes = (bits + 7) >> 3`, rounded up to frames). -/
def needed_info_frames (n : Nat) : Nat :=
  let bits := n * 2
  let bytes := (bits + 7) / 8
  (bytes + FRAME_SIZE - 1) / FRAME_SIZE

/-- The constructor's zero loop `for (i = 0; i < bitmap_size; ++i) bitmap[i] = 0`,
parameterised by the next index and the remaining count. -/
def zero_bytes : List Nat → Nat → Nat → List Nat
  | bm, _, 0 => bm
  | bm, i, k + 1 => zero_bytes (bm.set i 0) (i + 1) k

/-- The constructor's pre-marking loop in the self-hosted branch:
`for (i = 0; i < info_frames; ++i) set_state(base_frame_no + i, Used)`,
parameterised by the loop index and the remaining count. -/
def premark_info : ContFramePool → Nat → Nat → ContFramePool
  | p, _, 0 => p
  | p, i, k + 1 => premark_info (p.set_state (p.base_frame_no + i) FrameState.Used) (i + 1) k

/-- Source `ContFramePool::ContFramePool(base, count, info)`.  `mem` is the byte
content of the memory the `bitmap` pointer comes to address (frame
`base * FRAME_SIZE` in the self-hosted branch, `info * FRAME_SIZE`
otherwise); the source leaves it uninitialized, so it is arbitrary here.
The registry push and the console notice are modelled at the call sites
(registries are explicit lists of pools). -/
def ContFramePool.mk_pool (base count info : Nat) (mem : List Nat) : ContFramePool :=
  let bits := count * 2
  let bsize := (bits + 7) / 8
  let p0 : ContFramePool :=
    { base_frame_no := base, n_frames := count, info_frame_no := info,
      bitmap := mem, bitmap_size := bsize }
  let p1 :=
    if info = 0 then
      let info_frames := needed_info_frames count
      let pm := premark_info p0 0 info_frames
      { pm with base_frame_no := pm.base_frame_no + info_frames,
                n_frames := pm.n_frames - info_frames }
    else p0
  { p1 with bitmap := zero_bytes p1.bitmap 0 p1.bitmap_size }

/-- The marking loop of `get_frames`:
`for (i = 1; i < n_req; ++i) set_state(start + i, Used)`, rendered as
"set `k` frames to `Used` starting at frame `fr`" with `fr = start + 1`
and `k = n_req - 1`. -/
def mark_used_count : ContFramePool → Nat → Nat → ContFramePool
  | p, _, 0 => p
  | p, fr, k + 1 => mark_used_count (p.set_state fr FrameState.Used) (fr + 1) k

/-- The scan loop of `ContFramePool::get_frames`: walk frame `f` with `rem`
frames left until `end`, tracking the current free-run length `run` and its
first frame `start`; the instant the run reaches `n_req`, mark the run
(`HoS` head, `Used` tail) and return its base, else return the sentinel `0`
with the pool unchanged. -/
def get_frames_loop (p : ContFramePool) (n_req : Nat) :
    Nat → Nat → Nat → Nat → Nat × ContFramePool
  | _, _, _, 0 => (0, p)
  | f, run, start, rem + 1 =>
    if p.get_state f = FrameState.Free then
      let start' := if run = 0 then f else start
      if run + 1 = n_req then
        (start', mark_used_count (p.set_state start' FrameState.HoS) (start' + 1) (n_req - 1))
      else get_frames_loop p n_req (f + 1) (run + 1) start' rem
    else get_frames_loop p n_req (f + 1) 0 start rem

/-- Source `ContFramePool::get_frames(n_req)`: first component is the returned
frame number (`0` = failure sentinel), second the pool afterwards. -/
def ContFramePool.get_frames (p : ContFramePool) (n_req : Nat) : Nat × ContFramePool :=
  if n_req = 0 then (0, p)
  else get_frames_loop p n_req p.base_frame_no 0 0 p.n_frames

/-- Pure mirror of the scan loop of `get_frames`: same traversal, no
mutation, returning the selected run base if any. -/
def find_loop (p : ContFramePool) (n_req : Nat) : Nat → Nat → Nat → Nat → Option Nat
  | _, _, _, 0 => none
  | f, run, start, rem + 1 =>
    if p.get_state f = FrameState.Free then
      let start' := if run = 0 then f else start
      if run + 1 = n_req then some start'
      else find_loop p n_req (f + 1) (run + 1) start' rem
    else find_loop p n_req (f + 1) 0 start rem

/-- The loop of `ContFramePool::mark_inaccessible`:
`for (f = base; f < base + count; ++f) set_state(f, Used)`, parameterised
by the current frame and the remaining count. -/
def mark_inacc_loop : ContFramePool → Nat → Nat → ContFramePool
  | p, _, 0 => p
  | p, f, k + 1 => mark_inacc_loop (p.set_state f FrameState.Used) (f + 1) k

/-- Source `ContFramePool::mark_inaccessible(base, count)`. -/
def ContFramePool.mark_inaccessible (p : ContFramePool) (base count : Nat) : ContFramePool :=
  mark_inacc_loop p base count

/-- The walk of `release_frames` after freeing the head:
`while (f < end && get_state(f) == Used) { set_state(f, Free); ++f; }`,
with the fuel `rem = end - f` enforcing the range bound. -/
def release_loop : ContFramePool → Nat → Nat → ContFramePool
  | p, _, 0 => p
  | p, f, rem + 1 =>
    if p.get_state f = FrameState.Used then
      release_loop (p.set_state f FrameState.Free) (f + 1) rem
    else p

/-- The per-pool body of `release_frames` once the owning pool is found and
the head check passed: free the head, then walk the `Used` tail. -/
def ContFramePool.release_run (p : ContFramePool) (first : Nat) : ContFramePool :=
  release_loop (p.set_state first FrameState.Free) (first + 1)
    (p.base_frame_no + p.n_frames - (first + 1))

/-- The two console error messages of `release_frames`. -/
inductive ReleaseError : Type
  | unknownFrame : ReleaseError
  | notHoS : ReleaseError
deriving DecidableEq, Repr

/-- Static `ContFramePool::release_frames(first)`: scan the registry
`pools[0..pool_count)` for the first pool whose range contains `first`;
inside it, reject a non-head frame, otherwise free the run.  The registry
is the list argument, the console diagnostic the `Option` component. -/
def release_frames : List ContFramePool → Nat → List ContFramePool × Option ReleaseError
  | [], _ => ([], some ReleaseError.unknownFrame)
  | p :: rest, first =>
    if p.base_frame_no ≤ first ∧ first < p.base_frame_no + p.n_frames then
      if p.get_state first = FrameState.HoS then
        (p.release_run first :: rest, none)
      else (p :: rest, some ReleaseError.notHoS)
    else
      let r := release_frames rest first
      (p :: r.1, r.2)

theorem mark_used_count_base (p : ContFramePool) (fr k : Nat) :
    (mark_used_count p fr k).base_frame_no = p.base_frame_no := by
  induction k generalizing p fr with
  | zero => rfl
  | succ k ih => simpa [mark_used_count] using ih (p.set_state fr FrameState.Used) (fr + 1)

theorem mark_used_count_n_frames (p : ContFramePool) (fr k : Nat) :
    (mark_used_count p fr k).n_frames = p.n_frames := by
  induction k generalizing p fr with
  | zero => rfl
  | succ k ih => simpa [mark_used_count] using ih (p.set_state fr FrameState.Used) (fr + 1)

theorem mark_used_count_bitmap_size (p : ContFramePool) (fr k : Nat) :
    (mark_used_count p fr k).bitmap_size = p.bitmap_size := by
  induction k generalizing p fr with
  | zero => rfl
  | succ k ih => simpa [mark_used_count] using ih (p.set_state fr FrameState.Used) (fr + 1)

theorem WF_mark_used_count (p : ContFramePool) (fr k : Nat) (hwf : WF p) :
    WF (mark_used_count p fr k) := by
  induction k generalizing p fr with
  | zero => exact hwf
  | succ k ih => exact ih _ _ (WF_set_state p fr FrameState.Used hwf)

/-- State map after the `Used`-marking loop: the `k` frames starting at `fr`
read `Used`, every other frame at or above the base is untouched. -/
theorem get_state_mark_used_count (p : ContFramePool) (fr k g : Nat) (hwf : WF p)
    (hfr : p.base_frame_no ≤ fr) (hend : fr + k ≤ p.base_frame_no + p.n_frames)
    (hg : p.base_frame_no ≤ g) :
    (mark_used_count p fr k).get_state g =
      if fr ≤ g ∧ g < fr + k then FrameState.Used else p.get_state g := by
  induction k generalizing p fr with
  | zero =>
    simp only [mark_used_count]
    rw [if_neg (by omega)]
  | succ k ih =>
    have hfrlt : fr < p.base_frame_no + p.n_frames := by omega
    have hwf' := WF_set_state p fr FrameState.Used hwf
    have hbase' := set_state_base p fr FrameState.Used
    have hn' := set_state_n_frames p fr FrameState.Used
    simp only [mark_used_count]
    rw [ih (p.set_state fr FrameState.Used) (fr + 1) hwf' (by rw [hbase']; omega)
      (by rw [hbase', hn']; omega) (by rw [hbase']; exact hg)]
    by_cases hg1 : fr + 1 ≤ g ∧ g < fr + 1 + k
    · simp only [hg1, if_true]
      have : fr ≤ g ∧ g < fr + (k + 1) := by omega
      simp [this]
    · simp only [hg1, if_false]
      by_cases hgf : g = fr
      · subst hgf
        rw [get_state_set_state_self p g FrameState.Used hwf hg hfrlt]
        have : g ≤ g ∧ g < g + (k + 1) := by omega
        simp [this]
      · rw [get_state_set_state_other p fr g FrameState.Used hwf hfr hfrlt hg
          (fun h => hgf h.symm)]
        have : ¬(fr ≤ g ∧ g < fr + (k + 1)) := by omega
        simp [this]

/-- A free window of `n` frames starting at `w`: the contiguous run the
spec's `get_frames` contract talks about. -/
def FreeWin (p : ContFramePool) (w n : Nat) : Prop :=
  ∀ i < n, p.get_state (w + i) = FrameState.Free

instance (p : ContFramePool) (w n : Nat) : Decidable (FreeWin p w n) := by
  unfold FreeWin; infer_instance

/-- The mutating scan loop is the pure scan followed by run marking. -/
theorem get_frames_loop_eq_find (p : ContFramePool) (n_req : Nat) (f run start rem : Nat) :
    get_frames_loop p n_req f run start rem =
      match find_loop p n_req f run start rem with
      | none => (0, p)
      | some st =>
          (st, mark_used_count (p.set_state st FrameState.HoS) (st + 1) (n_req - 1)) := by
  induction rem generalizing f run start with
  | zero => rfl
  | succ rem ih =>
    simp only [get_frames_loop, find_loop]
    by_cases hfree : p.get_state f = FrameState.Free
    · simp only [hfree, if_true]
      by_cases hrun : run + 1 = n_req
      · simp [hrun]
      · simp only [hrun, if_false]
        exact ih _ _ _
    · simp only [hfree, if_false]
      exact ih _ _ _

/-- Source `ContFramePool::get_frames` as search-then-mark. -/
theorem get_frames_eq (p : ContFramePool) (n : Nat) (hn : 1 ≤ n) :
    p.get_frames n =
      match find_loop p n p.base_frame_no 0 0 p.n_frames with
      | none => (0, p)
      | some st =>
          (st, mark_used_count (p.set_state st FrameState.HoS) (st + 1) (n - 1)) := by
  unfold ContFramePool.get_frames
  rw [if_neg (by omega)]
  exact get_frames_loop_eq_find p n _ 0 0 _

/-- State map after marking a whole run of length `n` at `st`: `HoS` head,
`Used` tail, every other frame at or above the base untouched. -/
theorem get_state_mark_run (p : ContFramePool) (st n g : Nat) (hwf : WF p)
    (hst : p.base_frame_no ≤ st) (hend : st + n ≤ p.base_frame_no + p.n_frames)
    (hn : 1 ≤ n) (hg : p.base_frame_no ≤ g) :
    (mark_used_count (p.set_state st FrameState.HoS) (st + 1) (n - 1)).get_state g =
      if g = st then FrameState.HoS
      else if st < g ∧ g < st + n then FrameState.Used
      else p.get_state g := by
  have hstlt : st < p.base_frame_no + p.n_frames := by omega
  have hwf' := WF_set_state p st FrameState.HoS
  have hb := set_state_base p st FrameState.HoS
  have hnf := set_state_n_frames p st FrameState.HoS
  rw [get_state_mark_used_count _ _ _ _ (hwf' hwf) (by rw [hb]; omega)
    (by rw [hb, hnf]; omega) (by rw [hb]; exact hg)]
  by_cases h1 : st + 1 ≤ g ∧ g < st + 1 + (n - 1)
  · rw [if_pos h1, if_neg (by omega), if_pos (by omega)]
  · rw [if_neg h1]
    by_cases h2 : g = st
    · subst h2
      rw [if_pos rfl]
      exact get_state_set_state_self p g FrameState.HoS hwf hg hstlt
    · rw [if_neg h2, if_neg (by omega)]
      exact get_state_set_state_other p st g FrameState.HoS hwf hst hstlt hg
        (fun h => h2 h.symm)

/-- Loop invariant proof for the pure scan: on success the returned base
starts an in-range free window of length `n_req` and every lower in-range
base is blocked within `n_req` frames; on failure every in-range window is
blocked.  The invariant carries the current free streak `[f - run, f)`, the
streak start `start`, and blockedness of all earlier window bases. -/
theorem find_loop_spec (p : ContFramePool) (n_req : Nat) (hn : 1 ≤ n_req) :
    ∀ rem f run start,
      f + rem = p.base_frame_no + p.n_frames →
      p.base_frame_no + run ≤ f →
      run < n_req →
      (∀ i < run, p.get_state (f - run + i) = FrameState.Free) →
      (run ≠ 0 → start = f - run) →
      (∀ w, p.base_frame_no ≤ w → w < f - run →
        ∃ j, w ≤ j ∧ j < w + n_req ∧ p.get_state j ≠ FrameState.Free) →
      match find_loop p n_req f run start rem with
      | some st =>
          p.base_frame_no ≤ st ∧ st + n_req ≤ p.base_frame_no + p.n_frames ∧
          FreeWin p st n_req ∧
          (∀ w, p.base_frame_no ≤ w → w < st →
            ∃ j, w ≤ j ∧ j < w + n_req ∧ p.get_state j ≠ FrameState.Free)
      | none =>
          ∀ w, p.base_frame_no ≤ w → w + n_req ≤ p.base_frame_no + p.n_frames →
            ∃ j, w ≤ j ∧ j < w + n_req ∧ p.get_state j ≠ FrameState.Free := by
  intro rem
  induction rem with
  | zero =>
    intro f run start hpos hbase hrun _ _ hblock
    simp only [find_loop]
    intro w hw1 hw2
    exact hblock w hw1 (by omega)
  | succ rem ih =>
    intro f run start hpos hbase hrun hstreak hstart hblock
    simp only [find_loop]
    by_cases hfree : p.get_state f = FrameState.Free
    · simp only [hfree, if_true]
      by_cases hreq : run + 1 = n_req
      · simp only [hreq, if_true]
        have hstval : (if run = 0 then f else start) = f - run := by
          by_cases h0 : run = 0
          · rw [if_pos h0]; omega
          · rw [if_neg h0, hstart h0]
        rw [hstval]
        refine ⟨by omega, by omega, ?_, ?_⟩
        · intro i hi
          by_cases hlast : i = run
          · have h5 : f - run + i = f := by omega
            rw [h5]; exact hfree
          · exact hstreak i (by omega)
        · intro w hw1 hw2
          exact hblock w hw1 hw2
      · simp only [hreq, if_false]
        have hstep := ih (f + 1) (run + 1) (if run = 0 then f else start)
          (by omega) (by omega) (by omega)
          (by
            intro i hi
            have heq : f + 1 - (run + 1) + i = f - run + i := by omega
            rw [heq]
            by_cases hlast : i = run
            · have h5 : f - run + i = f := by omega
              rw [h5]; exact hfree
            · exact hstreak i (by omega))
          (by
            intro _
            by_cases h0 : run = 0
            · rw [if_pos h0]; omega
            · rw [if_neg h0, hstart h0]; omega)
          (by
            intro w hw1 hw2
            exact hblock w hw1 (by omega))
        exact hstep
    · simp only [hfree, if_false]
      have hstep := ih (f + 1) 0 start
        (by omega) (by omega) (by omega)
        (by intro i hi; omega)
        (by intro h0; exact absurd rfl h0)
        (by
          intro w hw1 hw2
          by_cases hwf2 : w < f - run
          · exact hblock w hw1 hwf2
          · refine ⟨f, by omega, by omega, hfree⟩)
      exact hstep

/-- Top-level consequence of the scan invariant for the whole usable range. -/
theorem find_loop_top (p : ContFramePool) (n : Nat) (hn : 1 ≤ n) :
    match find_loop p n p.base_frame_no 0 0 p.n_frames with
    | some st =>
        p.base_frame_no ≤ st ∧ st + n ≤ p.base_frame_no + p.n_frames ∧
        FreeWin p st n ∧
        (∀ w, p.base_frame_no ≤ w → w < st →
          ∃ j, w ≤ j ∧ j < w + n ∧ p.get_state j ≠ FrameState.Free)
    | none =>
        ∀ w, p.base_frame_no ≤ w → w + n ≤ p.base_frame_no + p.n_frames →
          ∃ j, w ≤ j ∧ j < w + n ∧ p.get_state j ≠ FrameState.Free := by
  exact find_loop_spec p n hn p.n_frames p.base_frame_no 0 0 (by omega) (by omega)
    (by omega) (by omega) (by intro h; exact absurd rfl h) (by intro w hw1 hw2; omega)

/-- Uniqueness of the first fit: if `f` starts an in-range free window and
every smaller in-range base is blocked within `n` frames, the scan
returns `f`. -/
theorem find_loop_eq_of_minimal (p : ContFramePool) (n f : Nat) (hn : 1 ≤ n)
    (hf1 : p.base_frame_no ≤ f) (hf2 : f + n ≤ p.base_frame_no + p.n_frames)
    (hwin : FreeWin p f n)
    (hmin : ∀ w, p.base_frame_no ≤ w → w < f →
      ∃ j, w ≤ j ∧ j < w + n ∧ p.get_state j ≠ FrameState.Free) :
    find_loop p n p.base_frame_no 0 0 p.n_frames = some f := by
  have htop := find_loop_top p n hn
  cases hfind : find_loop p n p.base_frame_no 0 0 p.n_frames with
  | none =>
    rw [hfind] at htop
    obtain ⟨j, hj1, hj2, hj3⟩ := htop f hf1 hf2
    exact absurd (hwin (j - f) (by omega)) (by
      have : f + (j - f) = j := by omega
      rw [this]; exact hj3)
  | some st =>
    rw [hfind] at htop
    obtain ⟨hst1, hst2, hstwin, hstmin⟩ := htop
    congr 1
    by_contra hne
    rcases Nat.lt_or_ge st f with hlt | hge
    · obtain ⟨j, hj1, hj2, hj3⟩ := hmin st hst1 hlt
      exact absurd (hstwin (j - st) (by omega)) (by
        have : st + (j - st) = j := by omega
        rw [this]; exact hj3)
    · have hlt : f < st := by omega
      obtain ⟨j, hj1, hj2, hj3⟩ := hstmin f hf1 hlt
      exact absurd (hwin (j - f) (by omega)) (by
        have : f + (j - f) = j := by omega
        rw [this]; exact hj3)

/-- Length of the maximal `Used` streak starting at a frame, the quantity
the release walk re-derives; the fuel is the distance to the range end. -/
def used_run_len (p : ContFramePool) : Nat → Nat → Nat
  | _, 0 => 0
  | f, rem + 1 =>
    if p.get_state f = FrameState.Used then used_run_len p (f + 1) rem + 1 else 0

theorem used_run_len_le (p : ContFramePool) (f rem : Nat) :
    used_run_len p f rem ≤ rem := by
  induction rem generalizing f with
  | zero => simp [used_run_len]
  | succ rem ih =>
    simp only [used_run_len]
    by_cases h : p.get_state f = FrameState.Used
    · simp only [h, if_true]
      have := ih (f + 1)
      omega
    · simp [h]

theorem used_run_len_used (p : ContFramePool) (f rem : Nat) :
    ∀ i < used_run_len p f rem, p.get_state (f + i) = FrameState.Used := by
  induction rem generalizing f with
  | zero => simp [used_run_len]
  | succ rem ih =>
    simp only [used_run_len]
    by_cases h : p.get_state f = FrameState.Used
    · simp only [h, if_true]
      intro i hi
      match i with
      | 0 => simpa using h
      | i + 1 =>
        have := ih (f + 1) i (by omega)
        have heq : f + (i + 1) = f + 1 + i := by omega
        rw [heq]; exact this
    · simp [h]

theorem used_run_len_stop (p : ContFramePool) (f rem : Nat) :
    used_run_len p f rem = rem ∨
      p.get_state (f + used_run_len p f rem) ≠ FrameState.Used := by
  induction rem generalizing f with
  | zero => left; simp [used_run_len]
  | succ rem ih =>
    simp only [used_run_len]
    by_cases h : p.get_state f = FrameState.Used
    · simp only [h, if_true]
      rcases ih (f + 1) with h1 | h1
      · left; omega
      · right
        have heq : f + (used_run_len p (f + 1) rem + 1) = f + 1 + used_run_len p (f + 1) rem := by
          omega
        rw [heq]; exact h1
    · simp only [h, if_false]
      right; simpa using h

/-- If `t` consecutive frames from `f` are `Used` and fit in the fuel, the
streak length is at least `t`. -/
theorem used_run_len_ge (p : ContFramePool) (f rem t : Nat) (ht : t ≤ rem)
    (h : ∀ i < t, p.get_state (f + i) = FrameState.Used) :
    t ≤ used_run_len p f rem := by
  induction t generalizing f rem with
  | zero => omega
  | succ t ih =>
    match rem, ht with
    | rem + 1, ht =>
      simp only [used_run_len]
      have h0 : p.get_state f = FrameState.Used := by simpa using h 0 (by omega)
      simp only [h0, if_true]
      have := ih (f + 1) rem (by omega) (by
        intro i hi
        have heq : f + 1 + i = f + (i + 1) := by omega
        rw [heq]; exact h (i + 1) (by omega))
      omega

/-- If the states of all frames scanned by the fuel agree between two pools,
the measured streak lengths agree. -/
theorem used_run_len_congr (p q : ContFramePool) (f rem : Nat)
    (h : ∀ g, f ≤ g → g < f + rem → p.get_state g = q.get_state g) :
    used_run_len p f rem = used_run_len q f rem := by
  induction rem generalizing f with
  | zero => rfl
  | succ rem ih =>
    simp only [used_run_len]
    rw [h f (by omega) (by omega)]
    by_cases hq : q.get_state f = FrameState.Used
    · simp only [hq, if_true]
      rw [ih (f + 1) (by
        intro g hg1 hg2
        exact h g (by omega) (by omega))]
    · simp [hq]

theorem release_loop_base (p : ContFramePool) (f rem : Nat) :
    (release_loop p f rem).base_frame_no = p.base_frame_no := by
  induction rem generalizing p f with
  | zero => rfl
  | succ rem ih =>
    simp only [release_loop]
    by_cases h : p.get_state f = FrameState.Used
    · simp only [h, if_true]; exact ih _ _
    · simp [h]

theorem release_loop_n_frames (p : ContFramePool) (f rem : Nat) :
    (release_loop p f rem).n_frames = p.n_frames := by
  induction rem generalizing p f with
  | zero => rfl
  | succ rem ih =>
    simp only [release_loop]
    by_cases h : p.get_state f = FrameState.Used
    · simp only [h, if_true]; exact ih _ _
    · simp [h]

theorem release_loop_bitmap_size (p : ContFramePool) (f rem : Nat) :
    (release_loop p f rem).bitmap_size = p.bitmap_size := by
  induction rem generalizing p f with
  | zero => rfl
  | succ rem ih =>
    simp only [release_loop]
    by_cases h : p.get_state f = FrameState.Used
    · simp only [h, if_true]; exact ih _ _
    · simp [h]

theorem WF_release_loop (p : ContFramePool) (f rem : Nat) (hwf : WF p) :
    WF (release_loop p f rem) := by
  induction rem generalizing p f with
  | zero => exact hwf
  | succ rem ih =>
    simp only [release_loop]
    by_cases h : p.get_state f = FrameState.Used
    · simp only [h, if_true]; exact ih _ _ (WF_set_state _ _ _ hwf)
    · simp [h]; exact hwf

/-- State map after the release walk: exactly the leading `Used` streak
(measured on the pool the walk starts from) becomes `Free`; every other
frame at or above the base is untouched. -/
theorem get_state_release_loop (p : ContFramePool) (f rem g : Nat) (hwf : WF p)
    (hf : p.base_frame_no ≤ f) (hrem : f + rem = p.base_frame_no + p.n_frames)
    (hg : p.base_frame_no ≤ g) :
    (release_loop p f rem).get_state g =
      if f ≤ g ∧ g < f + used_run_len p f rem then FrameState.Free
      else p.get_state g := by
  induction rem generalizing p f with
  | zero =>
    simp only [release_loop, used_run_len]
    rw [if_neg (by omega)]
  | succ rem ih =>
    simp only [release_loop, used_run_len]
    by_cases h : p.get_state f = FrameState.Used
    · simp only [h, if_true]
      have hflt : f < p.base_frame_no + p.n_frames := by omega
      have hwf' := WF_set_state p f FrameState.Free hwf
      have hcong : used_run_len (p.set_state f FrameState.Free) (f + 1) rem =
          used_run_len p (f + 1) rem := by
        apply used_run_len_congr
        intro g' hg1 hg2
        exact get_state_set_state_other p f g' FrameState.Free hwf hf hflt (by omega)
          (by omega)
      rw [ih (p.set_state f FrameState.Free) (f + 1) hwf'
        (by rw [set_state_base]; omega)
        (by rw [set_state_base, set_state_n_frames]; omega)
        (by rw [set_state_base]; exact hg), hcong]
      by_cases h1 : f + 1 ≤ g ∧ g < f + 1 + used_run_len p (f + 1) rem
      · rw [if_pos h1, if_pos (by omega)]
      · rw [if_neg h1]
        by_cases h2 : g = f
        · subst h2
          rw [get_state_set_state_self p g FrameState.Free hwf hg hflt,
            if_pos (by omega)]
        · rw [get_state_set_state_other p f g FrameState.Free hwf hf hflt hg
            (fun hx => h2 hx.symm), if_neg (by omega)]
    · simp only [h, if_false]
      rw [if_neg (by omega)]

theorem release_run_base (p : ContFramePool) (first : Nat) :
    (p.release_run first).base_frame_no = p.base_frame_no := by
  unfold ContFramePool.release_run
  rw [release_loop_base, set_state_base]

theorem release_run_n_frames (p : ContFramePool) (first : Nat) :
    (p.release_run first).n_frames = p.n_frames := by
  unfold ContFramePool.release_run
  rw [release_loop_n_frames, set_state_n_frames]

theorem release_run_bitmap_size (p : ContFramePool) (first : Nat) :
    (p.release_run first).bitmap_size = p.bitmap_size := by
  unfold ContFramePool.release_run
  rw [release_loop_bitmap_size, set_state_bitmap_size]

theorem WF_release_run (p : ContFramePool) (first : Nat) (hwf : WF p) :
    WF (p.release_run first) := by
  unfold ContFramePool.release_run
  exact WF_release_loop _ _ _ (WF_set_state _ _ _ hwf)

/-- State map after `release_run`: the head and the maximal `Used` streak
behind it (measured on the original pool) become `Free`; every other frame
at or above the base keeps its state. -/
theorem get_state_release_run (p : ContFramePool) (first g : Nat) (hwf : WF p)
    (h1 : p.base_frame_no ≤ first) (h2 : first < p.base_frame_no + p.n_frames)
    (hg : p.base_frame_no ≤ g) :
    (p.release_run first).get_state g =
      if first ≤ g ∧
          g < first + 1 +
            used_run_len p (first + 1) (p.base_frame_no + p.n_frames - (first + 1)) then
        FrameState.Free
      else p.get_state g := by
  unfold ContFramePool.release_run
  have hwf' := WF_set_state p first FrameState.Free hwf
  have hcong : used_run_len (p.set_state first FrameState.Free) (first + 1)
      (p.base_frame_no + p.n_frames - (first + 1)) =
      used_run_len p (first + 1) (p.base_frame_no + p.n_frames - (first + 1)) := by
    apply used_run_len_congr
    intro g' hg1 hg2
    exact get_state_set_state_other p first g' FrameState.Free hwf h1 h2 (by omega)
      (by omega)
  rw [get_state_release_loop _ _ _ _ hwf' (by rw [set_state_base]; omega)
    (by rw [set_state_base, set_state_n_frames]; omega) hg, hcong]
  by_cases ha : first + 1 ≤ g ∧
      g < first + 1 + used_run_len p (first + 1) (p.base_frame_no + p.n_frames - (first + 1))
  · rw [if_pos ha, if_pos (by omega)]
  · rw [if_neg ha]
    by_cases hb : g = first
    · subst hb
      rw [get_state_set_state_self p g FrameState.Free hwf hg h2, if_pos (by omega)]
    · rw [get_state_set_state_other p first g FrameState.Free hwf h1 h2 hg
        (fun hx => hb hx.symm), if_neg (by omega)]

/-- Range-membership test of the registry scan in `release_frames`:
`first >= begin && first < begin + n_frames`. -/
def in_pool_range (q : ContFramePool) (f : Nat) : Prop :=
  q.base_frame_no ≤ f ∧ f < q.base_frame_no + q.n_frames

instance (q : ContFramePool) (f : Nat) : Decidable (in_pool_range q f) := by
  unfold in_pool_range; infer_instance

/-- Registry scan, no owner: a frame in no registered pool's range is
rejected with the "does not belong to any pool" diagnostic and no pool is
modified. -/
theorem release_frames_not_found (ps : List ContFramePool) (f : Nat)
    (h : ∀ q ∈ ps, ¬in_pool_range q f) :
    release_frames ps f = (ps, some ReleaseError.unknownFrame) := by
  induction ps with
  | nil => rfl
  | cons p rest ih =>
    have hp : ¬(p.base_frame_no ≤ f ∧ f < p.base_frame_no + p.n_frames) :=
      h p (List.mem_cons_self p rest)
    simp only [release_frames]
    rw [if_neg hp, ih (fun q hq => h q (List.mem_cons_of_mem p hq))]

/-- Registry scan, owner found but the frame is not a run head: the call is
rejected with the "not Head-of-Sequence" diagnostic and no pool is
modified. -/
theorem release_frames_found_notHoS (ps1 ps2 : List ContFramePool) (p : ContFramePool)
    (f : Nat) (h1 : ∀ q ∈ ps1, ¬in_pool_range q f) (h2 : in_pool_range p f)
    (h3 : p.get_state f ≠ FrameState.HoS) :
    release_frames (ps1 ++ p :: ps2) f = (ps1 ++ p :: ps2, some ReleaseError.notHoS) := by
  induction ps1 with
  | nil =>
    simp only [List.nil_append, release_frames]
    rw [if_pos (show p.base_frame_no ≤ f ∧ f < p.base_frame_no + p.n_frames from h2),
      if_neg h3]
  | cons q rest ih =>
    have hq : ¬(q.base_frame_no ≤ f ∧ f < q.base_frame_no + q.n_frames) :=
      h1 q (List.mem_cons_self q rest)
    simp only [List.cons_append, release_frames, List.append_eq]
    rw [if_neg hq, ih (fun r hr => h1 r (List.mem_cons_of_mem q hr))]

/-- Registry scan, owner found and the frame is a run head: exactly the
owning pool is replaced by its `release_run` result, no diagnostic. -/
theorem release_frames_found_HoS (ps1 ps2 : List ContFramePool) (p : ContFramePool)
    (f : Nat) (h1 : ∀ q ∈ ps1, ¬in_pool_range q f) (h2 : in_pool_range p f)
    (h3 : p.get_state f = FrameState.HoS) :
    release_frames (ps1 ++ p :: ps2) f = (ps1 ++ p.release_run f :: ps2, none) := by
  induction ps1 with
  | nil =>
    simp only [List.nil_append, release_frames]
    rw [if_pos (show p.base_frame_no ≤ f ∧ f < p.base_frame_no + p.n_frames from h2),
      if_pos h3]
  | cons q rest ih =>
    have hq : ¬(q.base_frame_no ≤ f ∧ f < q.base_frame_no + q.n_frames) :=
      h1 q (List.mem_cons_self q rest)
    simp only [List.cons_append, release_frames, List.append_eq]
    rw [if_neg hq, ih (fun r hr => h1 r (List.mem_cons_of_mem q hr))]

theorem zero_bytes_length (bm : List Nat) (i k : Nat) :
    (zero_bytes bm i k).length = bm.length := by
  induction k generalizing bm i with
  | zero => rfl
  | succ k ih =>
    simp only [zero_bytes]
    rw [ih, List.length_set]

theorem zero_bytes_getD (bm : List Nat) (i k j : Nat) :
    (zero_bytes bm i k).getD j 0 = if i ≤ j ∧ j < i + k then 0 else bm.getD j 0 := by
  induction k generalizing bm i with
  | zero =>
    simp only [zero_bytes]
    rw [if_neg (by omega)]
  | succ k ih =>
    simp only [zero_bytes]
    rw [ih]
    by_cases h1 : i + 1 ≤ j ∧ j < i + 1 + k
    · rw [if_pos h1, if_pos (by omega)]
    · rw [if_neg h1]
      by_cases h2 : j = i
      · subst h2
        rw [if_pos (by omega)]
        by_cases hlen : j < bm.length
        · exact getD_set_self_nat bm j 0 hlen
        · rw [List.set_eq_of_length_le (by omega), List.getD_eq_default _ _ (by omega)]
      · rw [getD_set_other_nat bm i j 0 (fun hx => h2 hx.symm), if_neg (by omega)]

/-- Zeroing the whole map yields the all-zero byte list. -/
theorem zero_bytes_full (bm : List Nat) :
    zero_bytes bm 0 bm.length = List.replicate bm.length 0 := by
  apply List.ext_getElem
  · rw [zero_bytes_length, List.length_replicate]
  · intro j hj1 hj2
    rw [← List.getD_eq_getElem (zero_bytes bm 0 bm.length) 0 hj1,
      ← List.getD_eq_getElem (List.replicate bm.length 0) 0 hj2]
    rw [zero_bytes_getD]
    rw [zero_bytes_length] at hj1
    rw [if_pos (by omega)]
    rw [List.getD_eq_getElem _ _ hj2, List.getElem_replicate]

/-- Zeroing a map of exactly the loop's byte count yields all zeros. -/
theorem zero_bytes_full_of_length (bm : List Nat) (n : Nat) (h : bm.length = n) :
    zero_bytes bm 0 n = List.replicate n 0 := by
  subst h
  exact zero_bytes_full bm

theorem premark_info_base (p : ContFramePool) (i k : Nat) :
    (premark_info p i k).base_frame_no = p.base_frame_no := by
  induction k generalizing p i with
  | zero => rfl
  | succ k ih =>
    simp only [premark_info]
    rw [ih, set_state_base]

theorem premark_info_n_frames (p : ContFramePool) (i k : Nat) :
    (premark_info p i k).n_frames = p.n_frames := by
  induction k generalizing p i with
  | zero => rfl
  | succ k ih =>
    simp only [premark_info]
    rw [ih, set_state_n_frames]

theorem premark_info_info (p : ContFramePool) (i k : Nat) :
    (premark_info p i k).info_frame_no = p.info_frame_no := by
  induction k generalizing p i with
  | zero => rfl
  | succ k ih =>
    simp only [premark_info]
    rw [ih, set_state_info]

theorem premark_info_bitmap_size (p : ContFramePool) (i k : Nat) :
    (premark_info p i k).bitmap_size = p.bitmap_size := by
  induction k generalizing p i with
  | zero => rfl
  | succ k ih =>
    simp only [premark_info]
    rw [ih, set_state_bitmap_size]

theorem premark_info_bitmap_length (p : ContFramePool) (i k : Nat) :
    (premark_info p i k).bitmap.length = p.bitmap.length := by
  induction k generalizing p i with
  | zero => rfl
  | succ k ih =>
    simp only [premark_info]
    rw [ih, set_state_bitmap_length]

theorem mk_pool_base_self (base count : Nat) (mem : List Nat) :
    (ContFramePool.mk_pool base count 0 mem).base_frame_no =
      base + needed_info_frames count := by
  simp [ContFramePool.mk_pool, premark_info_base]

theorem mk_pool_n_frames_self (base count : Nat) (mem : List Nat) :
    (ContFramePool.mk_pool base count 0 mem).n_frames =
      count - needed_info_frames count := by
  simp [ContFramePool.mk_pool, premark_info_n_frames]

theorem mk_pool_bitmap_size_self (base count : Nat) (mem : List Nat) :
    (ContFramePool.mk_pool base count 0 mem).bitmap_size = (count * 2 + 7) / 8 := by
  simp [ContFramePool.mk_pool, premark_info_bitmap_size]

theorem mk_pool_bitmap_self_raw (base count : Nat) (mem : List Nat) :
    (ContFramePool.mk_pool base count 0 mem).bitmap =
      zero_bytes
        (premark_info
          { base_frame_no := base, n_frames := count, info_frame_no := 0,
            bitmap := mem, bitmap_size := (count * 2 + 7) / 8 }
          0 (needed_info_frames count)).bitmap
        0 ((count * 2 + 7) / 8) := by
  simp [ContFramePool.mk_pool, premark_info_bitmap_size]

theorem mk_pool_base_ext (base count info : Nat) (mem : List Nat) (hinfo : info ≠ 0) :
    (ContFramePool.mk_pool base count info mem).base_frame_no = base := by
  simp [ContFramePool.mk_pool, hinfo]

theorem mk_pool_n_frames_ext (base count info : Nat) (mem : List Nat) (hinfo : info ≠ 0) :
    (ContFramePool.mk_pool base count info mem).n_frames = count := by
  simp [ContFramePool.mk_pool, hinfo]

theorem mk_pool_bitmap_size_ext (base count info : Nat) (mem : List Nat) (hinfo : info ≠ 0) :
    (ContFramePool.mk_pool base count info mem).bitmap_size = (count * 2 + 7) / 8 := by
  simp [ContFramePool.mk_pool, hinfo]

theorem mk_pool_bitmap_ext (base count info : Nat) (mem : List Nat) (hinfo : info ≠ 0) :
    (ContFramePool.mk_pool base count info mem).bitmap =
      zero_bytes mem 0 ((count * 2 + 7) / 8) := by
  simp [ContFramePool.mk_pool, hinfo]

/-- In both constructor paths the final zero loop runs over the whole map:
with correctly sized backing memory the final map is all zero bytes. -/
theorem mk_pool_bitmap_zero (base count info : Nat) (mem : List Nat)
    (hlen : mem.length = (count * 2 + 7) / 8) :
    (ContFramePool.mk_pool base count info mem).bitmap =
      List.replicate ((count * 2 + 7) / 8) 0 := by
  by_cases hinfo : info = 0
  · subst hinfo
    rw [mk_pool_bitmap_self_raw]
    have hl : (premark_info
        { base_frame_no := base, n_frames := count, info_frame_no := 0,
          bitmap := mem, bitmap_size := (count * 2 + 7) / 8 }
        0 (needed_info_frames count)).bitmap.length = (count * 2 + 7) / 8 := by
      rw [premark_info_bitmap_length]; exact hlen
    exact zero_bytes_full_of_length _ _ hl
  · rw [mk_pool_bitmap_ext base count info mem hinfo]
    exact zero_bytes_full_of_length _ _ hlen

/-- A pool whose map is all zero bytes reads `Free` at every frame. -/
theorem get_state_all_zero (p : ContFramePool)
    (h : p.bitmap = List.replicate p.bitmap_size 0) (f : Nat) :
    p.get_state f = FrameState.Free := by
  simp only [ContFramePool.get_state, h]
  rw [List.getD_eq_getElem?_getD, List.getElem?_getD_replicate_default_eq,
    Nat.zero_shiftRight]
  rfl

theorem WF_mk_pool (base count info : Nat) (mem : List Nat)
    (hlen : mem.length = (count * 2 + 7) / 8) :
    WF (ContFramePool.mk_pool base count info mem) := by
  have hb := mk_pool_bitmap_zero base count info mem hlen
  by_cases hinfo : info = 0
  · subst hinfo
    refine ⟨?_, ?_, ?_⟩
    · rw [hb, List.length_replicate, mk_pool_bitmap_size_self]
    · intro b hbmem
      rw [hb] at hbmem
      have := List.eq_of_mem_replicate hbmem
      omega
    · rw [mk_pool_n_frames_self, mk_pool_bitmap_size_self]
      omega
  · refine ⟨?_, ?_, ?_⟩
    · rw [hb, List.length_replicate, mk_pool_bitmap_size_ext base count info mem hinfo]
    · intro b hbmem
      rw [hb] at hbmem
      have := List.eq_of_mem_replicate hbmem
      omega
    · rw [mk_pool_n_frames_ext base count info mem hinfo,
        mk_pool_bitmap_size_ext base count info mem hinfo]
      omega

/-- Every frame of a freshly constructed pool reads `Free`. -/
theorem mk_pool_all_free (base count info : Nat) (mem : List Nat)
    (hlen : mem.length = (count * 2 + 7) / 8) (f : Nat) :
    (ContFramePool.mk_pool base count info mem).get_state f = FrameState.Free := by
  apply get_state_all_zero
  rw [mk_pool_bitmap_zero base count info mem hlen]
  by_cases hinfo : info = 0
  · subst hinfo; rw [mk_pool_bitmap_size_self]
  · rw [mk_pool_bitmap_size_ext base count info mem hinfo]

/-- Inside a free window every frame reads `Free`. -/
theorem FreeWin_state (p : ContFramePool) (st n g : Nat) (hwin : FreeWin p st n)
    (h1 : st ≤ g) (h2 : g < st + n) : p.get_state g = FrameState.Free := by
  have hx := hwin (g - st) (by omega)
  have heq : st + (g - st) = g := by omega
  rw [heq] at hx
  exact hx

/-- The singleton-registry release call, fully cased out. -/
theorem release_frames_singleton (p : ContFramePool) (h : Nat) :
    release_frames [p] h =
      if p.base_frame_no ≤ h ∧ h < p.base_frame_no + p.n_frames then
        if p.get_state h = FrameState.HoS then ([p.release_run h], none)
        else ([p], some ReleaseError.notHoS)
      else ([p], some ReleaseError.unknownFrame) := by
  simp only [release_frames]

/-- What a release call can do to the one pool of a singleton registry. -/
theorem release_step_cases (p q : ContFramePool) (h : Nat) (e : Option ReleaseError)
    (hq : release_frames [p] h = ([q], e)) :
    q = p ∨
      (p.base_frame_no ≤ h ∧ h < p.base_frame_no + p.n_frames ∧
        p.get_state h = FrameState.HoS ∧ q = p.release_run h) := by
  rw [release_frames_singleton] at hq
  by_cases h1 : p.base_frame_no ≤ h ∧ h < p.base_frame_no + p.n_frames
  · rw [if_pos h1] at hq
    by_cases h2 : p.get_state h = FrameState.HoS
    · rw [if_pos h2] at hq
      right
      injection hq with hq1 hq2
      injection hq1 with hq3 hq4
      exact ⟨h1.1, h1.2, h2, hq3.symm⟩
    · rw [if_neg h2] at hq
      left
      injection hq with hq1 hq2
      injection hq1 with hq3 hq4
      exact hq3.symm
  · rw [if_neg h1] at hq
    left
    injection hq with hq1 hq2
    injection hq1 with hq3 hq4
    exact hq3.symm

/-- What a `get_frames` call can do to the pool: either nothing (zero
request or exhausted range, value `0`), or it marks the first-fit window
and returns its base. -/
theorem get_step_cases (p : ContFramePool) (n : Nat) :
    ((p.get_frames n).2 = p ∧ (p.get_frames n).1 = 0) ∨
      ∃ st, p.base_frame_no ≤ st ∧ st + n ≤ p.base_frame_no + p.n_frames ∧ 1 ≤ n ∧
        FreeWin p st n ∧
        (∀ w, p.base_frame_no ≤ w → w < st →
          ∃ j, w ≤ j ∧ j < w + n ∧ p.get_state j ≠ FrameState.Free) ∧
        (p.get_frames n).2 =
          mark_used_count (p.set_state st FrameState.HoS) (st + 1) (n - 1) ∧
        (p.get_frames n).1 = st := by
  by_cases hn : n = 0
  · left
    subst hn
    simp [ContFramePool.get_frames]
  · cases hfind : find_loop p n p.base_frame_no 0 0 p.n_frames with
    | none =>
      left
      rw [get_frames_eq p n (by omega), hfind]
      exact ⟨rfl, rfl⟩
    | some st =>
      right
      have htop := find_loop_top p n (by omega)
      rw [hfind] at htop
      obtain ⟨h1, h2, h3, h4⟩ := htop
      exact ⟨st, h1, h2, by omega, h3, h4,
        by rw [get_frames_eq p n (by omega), hfind],
        by rw [get_frames_eq p n (by omega), hfind]⟩

/-- One observable call on a single-pool system: a `get_frames` request of
any size, or a static `release_frames` on the singleton registry holding
the pool. -/
inductive PoolStep : ContFramePool → ContFramePool → Prop
  | get (p : ContFramePool) (n : Nat) : PoolStep p (p.get_frames n).2
  | release (p q : ContFramePool) (h : Nat) (e : Option ReleaseError)
      (hq : release_frames [p] h = ([q], e)) : PoolStep p q

/-- Reachability by a finite sequence of `get_frames` / `release_frames`
calls. -/
inductive Reach : ContFramePool → ContFramePool → Prop
  | refl (p : ContFramePool) : Reach p p
  | step (p q r : ContFramePool) : Reach p q → PoolStep q r → Reach p r

theorem PoolStep_preserves (p q : ContFramePool) (hs : PoolStep p q) (hwf : WF p) :
    WF q ∧ q.base_frame_no = p.base_frame_no ∧ q.n_frames = p.n_frames := by
  cases hs with
  | get n =>
    rcases get_step_cases p n with ⟨h, _⟩ | ⟨st, _, _, _, _, _, h6, _⟩
    · rw [h]; exact ⟨hwf, rfl, rfl⟩
    · rw [h6]
      refine ⟨WF_mark_used_count _ _ _ (WF_set_state _ _ _ hwf), ?_, ?_⟩
      · rw [mark_used_count_base, set_state_base]
      · rw [mark_used_count_n_frames, set_state_n_frames]
  | release q h e hq =>
    rcases release_step_cases p q h e hq with h1 | ⟨_, _, _, h4⟩
    · rw [h1]; exact ⟨hwf, rfl, rfl⟩
    · rw [h4]
      exact ⟨WF_release_run _ _ hwf, release_run_base _ _, release_run_n_frames _ _⟩

/-- The run-integrity invariant the spec states for the state map: every
`Used` frame of the usable range sits strictly behind a `HoS` head with
nothing but `Used` frames in between — runs have exactly one head, at
their lowest frame, and no `Free` hole inside. -/
def run_integrity (p : ContFramePool) : Prop :=
  ∀ f, p.base_frame_no ≤ f → f < p.base_frame_no + p.n_frames →
    p.get_state f = FrameState.Used →
    ∃ a, p.base_frame_no ≤ a ∧ a < f ∧ p.get_state a = FrameState.HoS ∧
      ∀ g, a < g → g ≤ f → p.get_state g = FrameState.Used

theorem run_integrity_step (p q : ContFramePool) (hs : PoolStep p q) (hwf : WF p)
    (hri : run_integrity p) : run_integrity q := by
  cases hs with
  | get n =>
    rcases get_step_cases p n with ⟨h, _⟩ | ⟨st, hst1, hst2, hn1, hwin, hmin, heq, _⟩
    · rw [h]; exact hri
    · rw [heq]
      intro f hf1 hf2 hfU
      rw [mark_used_count_base, set_state_base] at hf1
      rw [mark_used_count_base, set_state_base, mark_used_count_n_frames,
        set_state_n_frames] at hf2
      rw [mark_used_count_base, set_state_base]
      have hM : ∀ g, p.base_frame_no ≤ g →
          (mark_used_count (p.set_state st FrameState.HoS) (st + 1) (n - 1)).get_state g =
            if g = st then FrameState.HoS
            else if st < g ∧ g < st + n then FrameState.Used
            else p.get_state g :=
        fun g hg => get_state_mark_run p st n g hwf hst1 hst2 hn1 hg
      rw [hM f hf1] at hfU
      by_cases hc1 : f = st
      · rw [if_pos hc1] at hfU
        exact absurd hfU (by decide)
      · rw [if_neg hc1] at hfU
        by_cases hc2 : st < f ∧ f < st + n
        · refine ⟨st, hst1, hc2.1, ?_, ?_⟩
          · rw [hM st hst1, if_pos rfl]
          · intro g hg1 hg2
            rw [hM g (by omega), if_neg (by omega), if_pos (by omega)]
        · rw [if_neg hc2] at hfU
          obtain ⟨a, ha1, ha2, ha3, ha4⟩ := hri f hf1 hf2 hfU
          have hanot1 : a ≠ st := by
            intro hx
            rw [hx] at ha3
            rw [FreeWin_state p st n st hwin (by omega) (by omega)] at ha3
            exact absurd ha3 (by decide)
          have hanot2 : ¬(st < a ∧ a < st + n) := by
            intro hx
            rw [FreeWin_state p st n a hwin (by omega) (by omega)] at ha3
            exact absurd ha3 (by decide)
          refine ⟨a, ha1, ha2, ?_, ?_⟩
          · rw [hM a ha1, if_neg hanot1, if_neg hanot2]
            exact ha3
          · intro g hg1 hg2
            have hgU := ha4 g hg1 hg2
            have hgnot1 : g ≠ st := by
              intro hx
              rw [hx] at hgU
              rw [FreeWin_state p st n st hwin (by omega) (by omega)] at hgU
              exact absurd hgU (by decide)
            have hgnot2 : ¬(st < g ∧ g < st + n) := by
              intro hx
              rw [FreeWin_state p st n g hwin (by omega) (by omega)] at hgU
              exact absurd hgU (by decide)
            rw [hM g (by omega), if_neg hgnot1, if_neg hgnot2]
            exact hgU
  | release q h e hq =>
    rcases release_step_cases p q h e hq with h1 | ⟨hh1, hh2, hHoS, heq⟩
    · rw [h1]; exact hri
    · rw [heq]
      intro f hf1 hf2 hfU
      rw [release_run_base] at hf1
      rw [release_run_base, release_run_n_frames] at hf2
      rw [release_run_base]
      have hR : ∀ g, p.base_frame_no ≤ g → (p.release_run h).get_state g =
          if h ≤ g ∧
              g < h + 1 +
                used_run_len p (h + 1) (p.base_frame_no + p.n_frames - (h + 1)) then
            FrameState.Free
          else p.get_state g :=
        fun g hg => get_state_release_run p h g hwf hh1 hh2 hg
      have hzoneU := used_run_len_used p (h + 1) (p.base_frame_no + p.n_frames - (h + 1))
      have hstop := used_run_len_stop p (h + 1) (p.base_frame_no + p.n_frames - (h + 1))
      have hmle := used_run_len_le p (h + 1) (p.base_frame_no + p.n_frames - (h + 1))
      rw [hR f hf1] at hfU
      have hfnz : ¬(h ≤ f ∧
          f < h + 1 + used_run_len p (h + 1) (p.base_frame_no + p.n_frames - (h + 1))) := by
        intro hc
        rw [if_pos hc] at hfU
        exact absurd hfU (by decide)
      rw [if_neg hfnz] at hfU
      obtain ⟨a, ha1, ha2, ha3, ha4⟩ := hri f hf1 hf2 hfU
      have hane : a ≠ h := by
        intro hx
        subst hx
        have hfge : a + 1 + used_run_len p (a + 1) (p.base_frame_no + p.n_frames - (a + 1))
            ≤ f := by omega
        have hgU := ha4 (a + 1 + used_run_len p (a + 1)
          (p.base_frame_no + p.n_frames - (a + 1))) (by omega) hfge
        rcases hstop with hx1 | hx1
        · omega
        · exact absurd hgU hx1
      have hchain : ¬(a < h ∧ h ≤ f) := by
        intro hx
        have := ha4 h (by omega) (by omega)
        rw [hHoS] at this
        exact absurd this (by decide)
      have hznota : ¬(h ≤ a ∧
          a < h + 1 + used_run_len p (h + 1) (p.base_frame_no + p.n_frames - (h + 1))) := by
        intro hx
        have hagt : h < a := by omega
        have := hzoneU (a - (h + 1)) (by omega)
        have heq2 : h + 1 + (a - (h + 1)) = a := by omega
        rw [heq2] at this
        rw [this] at ha3
        exact absurd ha3 (by decide)
      have hznotg : ∀ g, a < g → g ≤ f → ¬(h ≤ g ∧
          g < h + 1 + used_run_len p (h + 1) (p.base_frame_no + p.n_frames - (h + 1))) := by
        intro g hg1 hg2 hx
        rcases Nat.lt_or_ge h a with hha | hha
        · exact hznota ⟨by omega, by omega⟩
        · have : h < a ∨ h = a ∨ (a < h ∧ h ≤ f) := by omega
          rcases this with hy | hy | hy
          · omega
          · exact hane hy.symm
          · exact hchain hy
      refine ⟨a, ha1, ha2, ?_, ?_⟩
      · rw [hR a ha1, if_neg hznota]
        exact ha3
      · intro g hg1 hg2
        rw [hR g (by omega), if_neg (hznotg g hg1 hg2)]
        exact ha4 g hg1 hg2

/-- Reachable states keep well-formedness, the run-integrity invariant,
and the usable range. -/
theorem Reach_invariant (p q : ContFramePool) (hr : Reach p q) (hwf : WF p)
    (hri : run_integrity p) :
    WF q ∧ run_integrity q ∧ q.base_frame_no = p.base_frame_no ∧
      q.n_frames = p.n_frames := by
  induction hr with
  | refl => exact ⟨hwf, hri, rfl, rfl⟩
  | step s t hst hstep ih =>
    obtain ⟨hwq, hrq, hb, hn⟩ := ih
    have hp := PoolStep_preserves _ _ hstep hwq
    have hrr := run_integrity_step _ _ hstep hwq hrq
    exact ⟨hp.1, hrr, by rw [hp.2.1, hb], by rw [hp.2.2, hn]⟩

/-- A freshly constructed pool satisfies run integrity (everything `Free`). -/
theorem run_integrity_mk_pool (base count info : Nat) (mem : List Nat)
    (hlen : mem.length = (count * 2 + 7) / 8) :
    run_integrity (ContFramePool.mk_pool base count info mem) := by
  intro f _ _ hfU
  rw [mk_pool_all_free base count info mem hlen f] at hfU
  exact absurd hfU (by decide)

/-- State map after the constructor's pre-marking loop: frames
`base + i .. base + i + c - 1` read `Used`, others are untouched. -/
theorem get_state_premark_info_aux (p : ContFramePool) (i c g : Nat) (hwf : WF p)
    (hbound : i + c ≤ p.n_frames) (hg : p.base_frame_no ≤ g) :
    (premark_info p i c).get_state g =
      if p.base_frame_no + i ≤ g ∧ g < p.base_frame_no + i + c then FrameState.Used
      else p.get_state g := by
  induction c generalizing p i with
  | zero =>
    simp only [premark_info]
    rw [if_neg (by omega)]
  | succ c ih =>
    have hrange : p.base_frame_no ≤ p.base_frame_no + i ∧
        p.base_frame_no + i < p.base_frame_no + p.n_frames := by omega
    have hwf' := WF_set_state p (p.base_frame_no + i) FrameState.Used hwf
    have hb := set_state_base p (p.base_frame_no + i) FrameState.Used
    simp only [premark_info]
    rw [ih (p.set_state (p.base_frame_no + i) FrameState.Used) (i + 1) hwf'
      (by rw [set_state_n_frames]; omega) (by rw [hb]; exact hg)]
    rw [hb]
    by_cases h1 : p.base_frame_no + (i + 1) ≤ g ∧ g < p.base_frame_no + (i + 1) + c
    · rw [if_pos h1, if_pos (by omega)]
    · rw [if_neg h1]
      by_cases h2 : g = p.base_frame_no + i
      · rw [h2, get_state_set_state_self p _ FrameState.Used hwf hrange.1 hrange.2,
          if_pos (by omega)]
      · rw [get_state_set_state_other p _ g FrameState.Used hwf hrange.1 hrange.2 hg
          (fun hx => h2 hx.symm), if_neg (by omega)]

/-- The metadata frames fit inside a non-empty pool's own range. -/
theorem needed_info_frames_le (count : Nat) (h : 1 ≤ count) :
    needed_info_frames count ≤ count := by
  show ((count * 2 + 7) / 8 + 4096 - 1) / 4096 ≤ count
  omega

/-- C1: starting from a freshly constructed pool, after every finite
sequence of `get_frames` / `release_frames` calls, every allocated run in
the usable range has exactly one `HoS` frame, at its lowest frame, all
other frames of the run are `Used`, and no `Free` frame lies strictly
inside a run.  Formalised as `run_integrity`: every `Used` frame of the
usable range sits strictly behind a `HoS` head with only `Used` frames in
between, which pins down each run as one head followed by its `Used`
tail. -/
theorem C1_run_integrity (base count info : Nat) (mem : List Nat) (q : ContFramePool)
    (hlen : mem.length = (count * 2 + 7) / 8)
    (hr : Reach (ContFramePool.mk_pool base count info mem) q) :
    run_integrity q :=
  (Reach_invariant _ q hr (WF_mk_pool base count info mem hlen)
    (run_integrity_mk_pool base count info mem hlen)).2.1

theorem C1_run_integrity_witness :
    run_integrity ((ContFramePool.mk_pool 1 8 0 [7, 200]).get_frames 2).2 :=
  C1_run_integrity 1 8 0 [7, 200] _ (by decide)
    (Reach.step _ _ _ (Reach.refl _) (PoolStep.get _ 2))

/-- C2: whenever `get_frames n` (with `n ≥ 1`) returns a nonzero frame
number `f`, then `f` starts an in-range window of `n` frames all `Free`
in the pre-state, and no smaller in-range base starts such a window:
`f` is the smallest frame number of the usable range whose `n` following
frames are all `Free` — first fit, never a later candidate. -/
theorem C2_first_fit (p : ContFramePool) (n f : Nat) (q : ContFramePool) (hwf : WF p)
    (hn : 1 ≤ n) (hget : p.get_frames n = (f, q)) (hnz : f ≠ 0) :
    p.base_frame_no ≤ f ∧ f + n ≤ p.base_frame_no + p.n_frames ∧ FreeWin p f n ∧
      ∀ w, p.base_frame_no ≤ w → w + n ≤ p.base_frame_no + p.n_frames → w < f →
        ¬FreeWin p w n := by
  rcases get_step_cases p n with ⟨_, h2⟩ | ⟨st, hs1, hs2, _, hwin, hmin, _, hval⟩
  · rw [hget] at h2
    exact absurd h2 hnz
  · rw [hget] at hval
    have hf : f = st := hval
    obtain rfl := hf
    refine ⟨hs1, hs2, hwin, ?_⟩
    intro w hw1 hw2 hwlt hwfree
    obtain ⟨j, hj1, hj2, hj3⟩ := hmin w hw1 hwlt
    exact hj3 (FreeWin_state p w n j hwfree hj1 hj2)

theorem C2_first_fit_witness :
    (ContFramePool.mk_pool 1 8 0 [7, 200]).base_frame_no ≤ 2 ∧
      2 + 3 ≤ (ContFramePool.mk_pool 1 8 0 [7, 200]).base_frame_no +
        (ContFramePool.mk_pool 1 8 0 [7, 200]).n_frames ∧
      FreeWin (ContFramePool.mk_pool 1 8 0 [7, 200]) 2 3 ∧
      ∀ w, (ContFramePool.mk_pool 1 8 0 [7, 200]).base_frame_no ≤ w →
        w + 3 ≤ (ContFramePool.mk_pool 1 8 0 [7, 200]).base_frame_no +
          (ContFramePool.mk_pool 1 8 0 [7, 200]).n_frames → w < 2 →
        ¬FreeWin (ContFramePool.mk_pool 1 8 0 [7, 200]) w 3 :=
  C2_first_fit (ContFramePool.mk_pool 1 8 0 [7, 200]) 3 2
    ((ContFramePool.mk_pool 1 8 0 [7, 200]).get_frames 3).2
    (by decide) (by decide) (by decide) (by decide)

/-- C3: a `release_frames` call on a head frame `h` of a registered pool
(found first in the registry scan) replaces exactly that pool by its
`release_run` result with no diagnostic; the freed region is `h` plus the
maximal `Used` streak behind it — those frames become `Free`, the walk
stops at the range end or at the first frame that is not `Used` (that is,
`Free` or `HoS`), and the boundary frame and every frame outside the freed
region keep their previous state. -/
theorem C3_release_frees_run (ps1 ps2 : List ContFramePool) (p : ContFramePool) (h : Nat)
    (hwf : WF p) (h1 : ∀ q ∈ ps1, ¬in_pool_range q h) (h2 : in_pool_range p h)
    (hHoS : p.get_state h = FrameState.HoS) :
    release_frames (ps1 ++ p :: ps2) h = (ps1 ++ p.release_run h :: ps2, none) ∧
      (∀ i < used_run_len p (h + 1) (p.base_frame_no + p.n_frames - (h + 1)),
        p.get_state (h + 1 + i) = FrameState.Used) ∧
      (h + 1 + used_run_len p (h + 1) (p.base_frame_no + p.n_frames - (h + 1)) =
          p.base_frame_no + p.n_frames ∨
        p.get_state (h + 1 + used_run_len p (h + 1)
          (p.base_frame_no + p.n_frames - (h + 1))) ≠ FrameState.Used) ∧
      ∀ g, p.base_frame_no ≤ g →
        (p.release_run h).get_state g =
          if h ≤ g ∧ g < h + 1 + used_run_len p (h + 1)
              (p.base_frame_no + p.n_frames - (h + 1)) then FrameState.Free
          else p.get_state g := by
  obtain ⟨hh1, hh2⟩ := h2
  refine ⟨release_frames_found_HoS ps1 ps2 p h h1 ⟨hh1, hh2⟩ hHoS,
    used_run_len_used p (h + 1) _, ?_,
    fun g hg => get_state_release_run p h g hwf hh1 hh2 hg⟩
  rcases used_run_len_stop p (h + 1) (p.base_frame_no + p.n_frames - (h + 1)) with hx | hx
  · left; omega
  · right; exact hx

theorem C3_release_frees_run_witness :
    release_frames ([] ++ ((ContFramePool.mk_pool 1 8 0 [7, 200]).get_frames 3).2 :: []) 2 =
        ([] ++ ((ContFramePool.mk_pool 1 8 0 [7, 200]).get_frames 3).2.release_run 2 :: [],
          none) ∧
      (∀ i < used_run_len ((ContFramePool.mk_pool 1 8 0 [7, 200]).get_frames 3).2 (2 + 1)
          (((ContFramePool.mk_pool 1 8 0 [7, 200]).get_frames 3).2.base_frame_no +
              ((ContFramePool.mk_pool 1 8 0 [7, 200]).get_frames 3).2.n_frames - (2 + 1)),
        ((ContFramePool.mk_pool 1 8 0 [7, 200]).get_frames 3).2.get_state (2 + 1 + i) =
          FrameState.Used) ∧
      (2 + 1 + used_run_len ((ContFramePool.mk_pool 1 8 0 [7, 200]).get_frames 3).2 (2 + 1)
            (((ContFramePool.mk_pool 1 8 0 [7, 200]).get_frames 3).2.base_frame_no +
              ((ContFramePool.mk_pool 1 8 0 [7, 200]).get_frames 3).2.n_frames - (2 + 1)) =
          ((ContFramePool.mk_pool 1 8 0 [7, 200]).get_frames 3).2.base_frame_no +
            ((ContFramePool.mk_pool 1 8 0 [7, 200]).get_frames 3).2.n_frames ∨
        ((ContFramePool.mk_pool 1 8 0 [7, 200]).get_frames 3).2.get_state
            (2 + 1 + used_run_len ((ContFramePool.mk_pool 1 8 0 [7, 200]).get_frames 3).2
              (2 + 1)
              (((ContFramePool.mk_pool 1 8 0 [7, 200]).get_frames 3).2.base_frame_no +
                ((ContFramePool.mk_pool 1 8 0 [7, 200]).get_frames 3).2.n_frames -
                  (2 + 1))) ≠ FrameState.Used) ∧
      ∀ g, ((ContFramePool.mk_pool 1 8 0 [7, 200]).get_frames 3).2.base_frame_no ≤ g →
        (((ContFramePool.mk_pool 1 8 0 [7, 200]).get_frames 3).2.release_run 2).get_state g =
          if 2 ≤ g ∧ g < 2 + 1 +
              used_run_len ((ContFramePool.mk_pool 1 8 0 [7, 200]).get_frames 3).2 (2 + 1)
                (((ContFramePool.mk_pool 1 8 0 [7, 200]).get_frames 3).2.base_frame_no +
                  ((ContFramePool.mk_pool 1 8 0 [7, 200]).get_frames 3).2.n_frames -
                    (2 + 1)) then FrameState.Free
          else ((ContFramePool.mk_pool 1 8 0 [7, 200]).get_frames 3).2.get_state g :=
  C3_release_frees_run [] [] ((ContFramePool.mk_pool 1 8 0 [7, 200]).get_frames 3).2 2
    (by decide) (by decide) (by decide) (by decide)

/-- C4: a `release_frames` call on a frame outside every registered pool's
range reports the unknown-frame error and leaves every pool unchanged; a
call on a frame inside a registered pool's range (the first such pool in
the scan) whose state is not `HoS` reports the not-head error and leaves
every pool unchanged. -/
theorem C4_release_errors :
    (∀ (ps : List ContFramePool) (f : Nat),
      (∀ q ∈ ps, ¬in_pool_range q f) →
        release_frames ps f = (ps, some ReleaseError.unknownFrame)) ∧
    (∀ (ps1 ps2 : List ContFramePool) (p : ContFramePool) (f : Nat),
      (∀ q ∈ ps1, ¬in_pool_range q f) → in_pool_range p f →
        p.get_state f ≠ FrameState.HoS →
        release_frames (ps1 ++ p :: ps2) f = (ps1 ++ p :: ps2, some ReleaseError.notHoS)) :=
  ⟨release_frames_not_found, release_frames_found_notHoS⟩

theorem C4_release_errors_witness :
    release_frames [ContFramePool.mk_pool 1 8 0 [7, 200]] 100 =
        ([ContFramePool.mk_pool 1 8 0 [7, 200]], some ReleaseError.unknownFrame) ∧
      release_frames ([] ++ ContFramePool.mk_pool 1 8 0 [7, 200] :: []) 3 =
        ([] ++ ContFramePool.mk_pool 1 8 0 [7, 200] :: [], some ReleaseError.notHoS) :=
  ⟨C4_release_errors.1 [ContFramePool.mk_pool 1 8 0 [7, 200]] 100 (by decide),
   C4_release_errors.2 [] [] (ContFramePool.mk_pool 1 8 0 [7, 200]) 3 (by decide)
     (by decide) (by decide)⟩

/-- C5 counterexample: the claim "get_frames returns 0 iff the request is 0
or no sufficiently long free run exists" fails on a pool whose usable range
starts at frame 0 (external metadata, base 0): `get_frames 1` succeeds on
the free run at frame 0 and returns its base 0 — the sentinel value —
although the request is nonzero and an in-range free run of length 1
exists. -/
theorem C5_counterexample :
    ((ContFramePool.mk_pool 0 8 100 [7, 200]).get_frames 1).1 = 0 ∧
      (1 : Nat) ≠ 0 ∧
      (ContFramePool.mk_pool 0 8 100 [7, 200]).base_frame_no ≤ 0 ∧
      0 + 1 ≤ (ContFramePool.mk_pool 0 8 100 [7, 200]).base_frame_no +
        (ContFramePool.mk_pool 0 8 100 [7, 200]).n_frames ∧
      FreeWin (ContFramePool.mk_pool 0 8 100 [7, 200]) 0 1 := by
  decide

/-- C5 amended: for every pool whose usable range starts at frame 1 or
later (the design reserves frame 0, so the sentinel cannot collide with a
real base), `get_frames n` returns `0` exactly when `n = 0` or no in-range
run of `n` consecutive `Free` frames exists. -/
theorem C5_zero_iff (p : ContFramePool) (n : Nat) (hwf : WF p)
    (hbase : 1 ≤ p.base_frame_no) :
    (p.get_frames n).1 = 0 ↔
      (n = 0 ∨ ¬∃ w, p.base_frame_no ≤ w ∧ w + n ≤ p.base_frame_no + p.n_frames ∧
        FreeWin p w n) := by
  by_cases hn : n = 0
  · subst hn
    simp [ContFramePool.get_frames]
  · cases hfind : find_loop p n p.base_frame_no 0 0 p.n_frames with
    | none =>
      have htop := find_loop_top p n (by omega)
      rw [hfind] at htop
      constructor
      · intro _
        right
        rintro ⟨w, hw1, hw2, hw3⟩
        obtain ⟨j, hj1, hj2, hj3⟩ := htop w hw1 hw2
        exact hj3 (FreeWin_state p w n j hw3 hj1 hj2)
      · intro _
        rw [get_frames_eq p n (by omega), hfind]
    | some st =>
      have htop := find_loop_top p n (by omega)
      rw [hfind] at htop
      obtain ⟨h1, h2, h3, _⟩ := htop
      constructor
      · intro hzero
        rw [get_frames_eq p n (by omega), hfind] at hzero
        have hst : st = 0 := hzero
        omega
      · intro hor
        rcases hor with hc | hc
        · exact absurd hc hn
        · exact absurd ⟨st, h1, h2, h3⟩ hc

theorem C5_zero_iff_witness :
    (((ContFramePool.mk_pool 1 8 0 [7, 200]).get_frames 9).1 = 0 ↔
      (9 = 0 ∨ ¬∃ w, (ContFramePool.mk_pool 1 8 0 [7, 200]).base_frame_no ≤ w ∧
        w + 9 ≤ (ContFramePool.mk_pool 1 8 0 [7, 200]).base_frame_no +
          (ContFramePool.mk_pool 1 8 0 [7, 200]).n_frames ∧
        FreeWin (ContFramePool.mk_pool 1 8 0 [7, 200]) w 9)) :=
  C5_zero_iff (ContFramePool.mk_pool 1 8 0 [7, 200]) 9 (by decide) (by decide)

/-- C6 counterexample: on the self-hosted construction over frames
`[1, 9)` (`k = 1` metadata frame), the pre-marking loop records `Used` —
not `HoS` — for the first metadata frame, and the subsequent zero loop
covers the whole packed map, so after construction the map is entirely
zero: no slot records the claimed `HoS`/`Used` marks for the metadata
frames (their codes are nonzero), refuting both the "HeadOfSequence for
the first" and the "only the remaining slots are zeroed" parts. -/
theorem C6_counterexample :
    (premark_info
        { base_frame_no := 1, n_frames := 8, info_frame_no := 0,
          bitmap := [7, 200], bitmap_size := 2 }
        0 (needed_info_frames 8)).get_state 1 = FrameState.Used ∧
      FrameState.Used ≠ FrameState.HoS ∧
      (ContFramePool.mk_pool 1 8 0 [7, 200]).bitmap = List.replicate 2 0 ∧
      FrameState.HoS.toBits ≠ 0 ∧ FrameState.Used.toBits ≠ 0 := by
  decide

/-- C6 amended: with `metadata_frame_no = 0` over `[base, base+count)`, the
constructor computes `k = needed_info_frames(count)`, pre-marks frames
`[base, base+k)` all as `Used` (no `HoS` head), shrinks the usable range
to base `base+k` and count `count-k`, and then zeroes the ENTIRE packed
map — erasing the pre-marks — so after construction every slot, the
metadata slots included, decodes to `Free`. -/
theorem C6_constructor_self (base count : Nat) (mem : List Nat) (hcount : 1 ≤ count)
    (hlen : mem.length = (count * 2 + 7) / 8) (hmem : ∀ b ∈ mem, b < 256) :
    (∀ i < needed_info_frames count,
        (premark_info
            { base_frame_no := base, n_frames := count, info_frame_no := 0,
              bitmap := mem, bitmap_size := (count * 2 + 7) / 8 }
            0 (needed_info_frames count)).get_state (base + i) = FrameState.Used) ∧
      (ContFramePool.mk_pool base count 0 mem).base_frame_no =
        base + needed_info_frames count ∧
      (ContFramePool.mk_pool base count 0 mem).n_frames =
        count - needed_info_frames count ∧
      (ContFramePool.mk_pool base count 0 mem).bitmap =
        List.replicate ((count * 2 + 7) / 8) 0 ∧
      ∀ f, (ContFramePool.mk_pool base count 0 mem).get_state f = FrameState.Free := by
  have hwfp0 :
      WF { base_frame_no := base, n_frames := count, info_frame_no := 0,
           bitmap := mem, bitmap_size := (count * 2 + 7) / 8 } :=
    ⟨hlen, hmem, by show count * 2 ≤ (count * 2 + 7) / 8 * 8; omega⟩
  refine ⟨?_, mk_pool_base_self base count mem, mk_pool_n_frames_self base count mem,
    mk_pool_bitmap_zero base count 0 mem hlen, mk_pool_all_free base count 0 mem hlen⟩
  intro i hi
  have hk := needed_info_frames_le count hcount
  have haux := get_state_premark_info_aux
    { base_frame_no := base, n_frames := count, info_frame_no := 0,
      bitmap := mem, bitmap_size := (count * 2 + 7) / 8 }
    0 (needed_info_frames count) (base + i) hwfp0
    (by show 0 + needed_info_frames count ≤ count; omega)
    (by show base ≤ base + i; omega)
  rw [haux]
  have hcond : ContFramePool.base_frame_no
      { base_frame_no := base, n_frames := count, info_frame_no := 0,
        bitmap := mem, bitmap_size := (count * 2 + 7) / 8 } + 0 ≤ base + i ∧
      base + i < ContFramePool.base_frame_no
        { base_frame_no := base, n_frames := count, info_frame_no := 0,
          bitmap := mem, bitmap_size := (count * 2 + 7) / 8 } + 0 +
        needed_info_frames count :=
    ⟨by show base + 0 ≤ base + i; omega, by show base + i < base + 0 + needed_info_frames count; omega⟩
  rw [if_pos hcond]

theorem C6_constructor_self_witness :
    (∀ i < needed_info_frames 8,
        (premark_info
            { base_frame_no := 2, n_frames := 8, info_frame_no := 0,
              bitmap := [3, 9], bitmap_size := (8 * 2 + 7) / 8 }
            0 (needed_info_frames 8)).get_state (2 + i) = FrameState.Used) ∧
      (ContFramePool.mk_pool 2 8 0 [3, 9]).base_frame_no = 2 + needed_info_frames 8 ∧
      (ContFramePool.mk_pool 2 8 0 [3, 9]).n_frames = 8 - needed_info_frames 8 ∧
      (ContFramePool.mk_pool 2 8 0 [3, 9]).bitmap = List.replicate ((8 * 2 + 7) / 8) 0 ∧
      ∀ f, (ContFramePool.mk_pool 2 8 0 [3, 9]).get_state f = FrameState.Free :=
  C6_constructor_self 2 8 [3, 9] (by decide) (by decide) (by decide)

/-- C7: the claim (and the source file's own documentation block) say
`mark_inaccessible(b, c)` marks frame `b` as `HoS` and the following
`c - 1` frames as `Used`; the loop in the code sets every frame of the
range, the first included, to `Used`, so the marked run has no head and
can never be released.  Evaluated at the failing input
`mark_inaccessible(3, 2)` on a fresh pool over `[1, 9)`. -/
theorem C7_mark_inaccessible_no_head :
    ((ContFramePool.mk_pool 1 8 0 [7, 200]).mark_inaccessible 3 2).get_state 3 =
        FrameState.Used ∧
      ((ContFramePool.mk_pool 1 8 0 [7, 200]).mark_inaccessible 3 2).get_state 4 =
        FrameState.Used ∧
      FrameState.Used ≠ FrameState.HoS := by
  decide

/-- C8: if `get_frames n` succeeds returning base frame `f` (nonzero), then
`release_frames f` on the resulting pool succeeds with no diagnostic, and
a second `get_frames n` with no operation in between returns the same base
frame `f` — the released frames are fully reclaimed. -/
theorem C8_round_trip (p : ContFramePool) (n f : Nat) (q : ContFramePool) (hwf : WF p)
    (hget : p.get_frames n = (f, q)) (hnz : f ≠ 0) :
    ∃ q2, release_frames [q] f = ([q2], none) ∧ (q2.get_frames n).1 = f := by
  rcases get_step_cases p n with ⟨_, h2⟩ | ⟨st, hs1, hs2, hn1, hwin, hmin, heq2, hval⟩
  · rw [hget] at h2
    exact absurd h2 hnz
  · rw [hget] at hval heq2
    have hf : f = st := hval
    subst hf
    have hq : q = mark_used_count (p.set_state f FrameState.HoS) (f + 1) (n - 1) := heq2
    have hwfq : WF q := by
      rw [hq]
      exact WF_mark_used_count _ _ _ (WF_set_state _ _ _ hwf)
    have hqbase : q.base_frame_no = p.base_frame_no := by
      rw [hq, mark_used_count_base, set_state_base]
    have hqn : q.n_frames = p.n_frames := by
      rw [hq, mark_used_count_n_frames, set_state_n_frames]
    have hM : ∀ g, p.base_frame_no ≤ g →
        q.get_state g =
          if g = f then FrameState.HoS
          else if f < g ∧ g < f + n then FrameState.Used
          else p.get_state g := by
      intro g hg
      rw [hq]
      exact get_state_mark_run p f n g hwf hs1 hs2 hn1 hg
    have hqHoS : q.get_state f = FrameState.HoS := by
      rw [hM f hs1, if_pos rfl]
    have hrel : release_frames [q] f = ([q.release_run f], none) := by
      rw [release_frames_singleton, if_pos ⟨by omega, by omega⟩, if_pos hqHoS]
    refine ⟨q.release_run f, hrel, ?_⟩
    set m := used_run_len q (f + 1) (q.base_frame_no + q.n_frames - (f + 1)) with hm
    have hmge : n - 1 ≤ m := by
      rw [hm]
      apply used_run_len_ge
      · omega
      · intro i hi
        rw [hM (f + 1 + i) (by omega), if_neg (by omega), if_pos (by omega)]
    have hR : ∀ g, p.base_frame_no ≤ g →
        (q.release_run f).get_state g =
          if f ≤ g ∧ g < f + 1 + m then FrameState.Free else q.get_state g := by
      intro g hg
      rw [hm]
      exact get_state_release_run q f g hwfq (by omega) (by omega) (by omega)
    have hwin2 : FreeWin (q.release_run f) f n := by
      intro i hi
      rw [hR (f + i) (by omega), if_pos (by omega)]
    have hmin2 : ∀ w, p.base_frame_no ≤ w → w < f →
        ∃ j, w ≤ j ∧ j < w + n ∧ (q.release_run f).get_state j ≠ FrameState.Free := by
      intro w hw1 hw2
      obtain ⟨j, hj1, hj2, hj3⟩ := hmin w hw1 hw2
      have hjlt : j < f := by
        by_contra hjge
        exact hj3 (FreeWin_state p f n j hwin (by omega) (by omega))
      refine ⟨j, hj1, hj2, ?_⟩
      rw [hR j (by omega), if_neg (by omega), hM j (by omega), if_neg (by omega),
        if_neg (by omega)]
      exact hj3
    have hfind2 : find_loop (q.release_run f) n (q.release_run f).base_frame_no 0 0
        (q.release_run f).n_frames = some f := by
      apply find_loop_eq_of_minimal (q.release_run f) n f (by omega)
      · rw [release_run_base]; omega
      · rw [release_run_base, release_run_n_frames]; omega
      · exact hwin2
      · intro w hw1 hw2
        rw [release_run_base] at hw1
        exact hmin2 w (by omega) hw2
    rw [get_frames_eq (q.release_run f) n (by omega), hfind2]

theorem C8_round_trip_witness :
    ∃ q2, release_frames [((ContFramePool.mk_pool 1 8 0 [7, 200]).get_frames 3).2] 2 =
        ([q2], none) ∧ (q2.get_frames 3).1 = 2 :=
  C8_round_trip (ContFramePool.mk_pool 1 8 0 [7, 200]) 3 2
    ((ContFramePool.mk_pool 1 8 0 [7, 200]).get_frames 3).2
    (by decide) (by decide) (by decide)

/-- C9: for every self-hosted pool constructed over `[B, B+N)` with
`k = needed_info_frames N`, no finite sequence of `get_frames` /
`release_frames` calls ever makes `get_frames` return a frame number in
`[B, B+k)` — the metadata frames are never handed out.  The value `0` is
the failure sentinel, unambiguously "no allocation", not a returned frame
number, so the property is stated for the nonzero returns: every actual
frame number returned lies at or above `B + k`, hence outside `[B, B+k)`,
for every base `B`. -/
theorem C9_metadata_self_containment (B N : Nat) (mem : List Nat) (q : ContFramePool)
    (n : Nat) (hlen : mem.length = (N * 2 + 7) / 8)
    (hr : Reach (ContFramePool.mk_pool B N 0 mem) q)
    (hnz : (q.get_frames n).1 ≠ 0) :
    ¬(B ≤ (q.get_frames n).1 ∧ (q.get_frames n).1 < B + needed_info_frames N) ∧
      B + needed_info_frames N ≤ (q.get_frames n).1 := by
  obtain ⟨hwq, _, hbase, _⟩ := Reach_invariant _ _ hr (WF_mk_pool B N 0 mem hlen)
    (run_integrity_mk_pool B N 0 mem hlen)
  rw [mk_pool_base_self] at hbase
  rcases get_step_cases q n with ⟨_, h2⟩ | ⟨st, hs1, _, _, _, _, _, hval⟩
  · exact absurd h2 hnz
  · rw [hval]
    rw [hbase] at hs1
    exact ⟨by omega, by omega⟩

theorem C9_metadata_self_containment_witness :
    ¬(0 ≤ ((ContFramePool.mk_pool 0 8 0 [7, 200]).get_frames 2).1 ∧
        ((ContFramePool.mk_pool 0 8 0 [7, 200]).get_frames 2).1 <
          0 + needed_info_frames 8) ∧
      0 + needed_info_frames 8 ≤ ((ContFramePool.mk_pool 0 8 0 [7, 200]).get_frames 2).1 :=
  C9_metadata_self_containment 0 8 [7, 200] (ContFramePool.mk_pool 0 8 0 [7, 200]) 2
    (by decide) (Reach.refl _) (by decide)

/-- C10: immediately after construction, in both the self-hosted and the
external-metadata path, the whole packed map has been zeroed — so every
frame of the usable range (indeed every frame number) reads `Free`, the
allocated marks written for the metadata frames in the self-hosted path
are erased, and those frames are protected from allocation only because
`base_frame_no` and `n_frames` were shrunk past them, not by their
recorded state. -/
theorem C10_constructor_all_free (base count info : Nat) (mem : List Nat)
    (hlen : mem.length = (count * 2 + 7) / 8) :
    (∀ f, (ContFramePool.mk_pool base count info mem).get_state f = FrameState.Free) ∧
      (ContFramePool.mk_pool base count info mem).bitmap =
        List.replicate ((count * 2 + 7) / 8) 0 ∧
      (info = 0 →
        (ContFramePool.mk_pool base count info mem).base_frame_no =
            base + needed_info_frames count ∧
          (ContFramePool.mk_pool base count info mem).n_frames =
            count - needed_info_frames count) := by
  refine ⟨mk_pool_all_free base count info mem hlen,
    mk_pool_bitmap_zero base count info mem hlen, ?_⟩
  intro h
  subst h
  exact ⟨mk_pool_base_self base count mem, mk_pool_n_frames_self base count mem⟩

theorem C10_constructor_all_free_witness :
    (∀ f, (ContFramePool.mk_pool 1 8 0 [7, 200]).get_state f = FrameState.Free) ∧
      (ContFramePool.mk_pool 1 8 0 [7, 200]).bitmap =
        List.replicate ((8 * 2 + 7) / 8) 0 ∧
      ((0 : Nat) = 0 →
        (ContFramePool.mk_pool 1 8 0 [7, 200]).base_frame_no =
            1 + needed_info_frames 8 ∧
          (ContFramePool.mk_pool 1 8 0 [7, 200]).n_frames =
            8 - needed_info_frames 8) :=
  C10_constructor_all_free 1 8 0 [7, 200] (by decide)
